import Mathlib

/-!
# Verification of the esp32-wifi-camera streaming core

Shallow embedding of `src/main/core/frame_buffer.hpp` (class `FrameBuffer`)
and `src/main/core/streaming_service.hpp` (class `StreamingService`), with
proofs of the documented properties of the ring buffer and the scheduler.

Modelling conventions:
* machine integers become `Nat` (sizes, counters, indices) or `Int`
  (microsecond timestamps); none of the verified properties involve
  wrap-around behaviour;
* a frame payload (`const uint8_t*` plus `size_t size`) becomes a
  `List Nat` of the addressable bytes together with the separate `size`
  argument; `memcpy(slot.data, data, size)` stores the first `size`
  bytes, i.e. `data.take size`;
* a null data pointer and a pointer to an empty region are both modelled
  by the empty list (the C++ guard `!data || size == 0` rejects both);
* the mutex only serialises the operations, so the sequential model is
  the mutual-exclusion semantics of the C++ code;
* `std::atomic` counters are plain fields (all reads and writes are
  already serialised in the sequential model).
-/

set_option linter.unusedVariables false
set_option linter.unnecessarySeqFocus false
set_option maxRecDepth 10000

namespace Esp32Cam

/-- One pre-allocated slot of the ring buffer (`struct FrameSlot`).
`data` holds the bytes stored by the last `memcpy` into the slot
(`uint8_t* data` in the source); `capacity` is implicit in
`max_frame_size`. -/
structure FrameSlot where
  data : List Nat
  size : Nat
  timestamp_us : Int
  occupied : Bool
  reading : Bool
deriving Repr, DecidableEq

/-- The value of a freshly allocated slot: the C++ member initialisers
give `size = 0`, `timestamp_us = 0`, `occupied = false`,
`reading = false`; the byte buffer contents are unspecified, modelled
as the empty list. -/
def FrameSlot.blank : FrameSlot :=
  { data := [], size := 0, timestamp_us := 0, occupied := false, reading := false }

instance : Inhabited FrameSlot := ⟨FrameSlot.blank⟩

/-- State of `class FrameBuffer`. -/
structure FrameBuffer where
  slots : List FrameSlot
  num_slots : Nat
  max_frame_size : Nat
  write_idx : Nat
  read_idx : Nat
  count : Nat
  frames_dropped : Nat
  initialized : Bool
deriving Repr, DecidableEq

namespace FrameBuffer

/-- A default-constructed `FrameBuffer`: all members zero / null /
false. -/
def mkEmpty : FrameBuffer :=
  { slots := [], num_slots := 0, max_frame_size := 0, write_idx := 0,
    read_idx := 0, count := 0, frames_dropped := 0, initialized := false }

/-- `FrameBuffer::init(num_slots, max_frame_size, use_psram)`.
Returns `true` immediately if already initialized; fails when either
argument is zero; otherwise allocates `num_slots` blank slots.
Allocation failure is outside the model (the rollback path is not
reachable in the abstract heap). The remaining members keep their
previous values, exactly as in the source. -/
def init (num_slots max_frame_size : Nat) (s : FrameBuffer) :
    Bool × FrameBuffer :=
  if s.initialized then (true, s)
  else if num_slots = 0 ∨ max_frame_size = 0 then (false, s)
  else
    (true, { s with
      slots := List.replicate num_slots FrameSlot.blank,
      num_slots := num_slots,
      max_frame_size := max_frame_size,
      initialized := true })

/-- The slot currently at an index (`slots_[i]`). Reads outside the
allocated array do not occur in the verified runs; `blank` is the
(dead) default. -/
def slotAt (s : FrameBuffer) (i : Nat) : FrameSlot :=
  s.slots.getD i FrameSlot.blank

/-- The eviction step inside `push` when the buffer is full and the
oldest slot is not being read (`frame_buffer.hpp` lines 162–165):
un-occupy `slots_[read_idx_]`, advance `read_idx_`, decrement `count_`,
increment `frames_dropped_`. -/
def evictOldest (s : FrameBuffer) : FrameBuffer :=
  { s with
    slots := s.slots.set s.read_idx
      { s.slotAt s.read_idx with occupied := false },
    read_idx := (s.read_idx + 1) % s.num_slots,
    count := s.count - 1,
    frames_dropped := s.frames_dropped + 1 }

/-- The write step inside `push` (`frame_buffer.hpp` lines 168–177):
`memcpy` the first `size` bytes into `slots_[write_idx_]`, fill the
metadata, advance `write_idx_`, increment `count_`. -/
def writeFrame (data : List Nat) (size : Nat) (timestamp_us : Int)
    (s : FrameBuffer) : FrameBuffer :=
  { s with
    slots := s.slots.set s.write_idx
      { data := data.take size, size := size,
        timestamp_us := timestamp_us, occupied := true, reading := false },
    write_idx := (s.write_idx + 1) % s.num_slots,
    count := s.count + 1 }

/-- `FrameBuffer::push(data, size, timestamp_us)`, lines 146–181.
Guards, then the full-buffer handling (reader-immunity first, else
evict oldest), then the copy into `slots_[write_idx_]`. -/
def push (data : List Nat) (size : Nat) (timestamp_us : Int)
    (s : FrameBuffer) : Bool × FrameBuffer :=
  if ¬ s.initialized ∨ data.isEmpty ∨ size = 0 then (false, s)
  else if size > s.max_frame_size then (false, s)
  else if s.num_slots ≤ s.count ∧ (s.slotAt s.read_idx).reading then
    -- consumer is holding the oldest slot: drop the *new* frame
    (true, { s with frames_dropped := s.frames_dropped + 1 })
  else if s.num_slots ≤ s.count then
    (true, s.evictOldest.writeFrame data size timestamp_us)
  else
    (true, s.writeFrame data size timestamp_us)

/-- `FrameBuffer::peek(&data, &size, &timestamp_us)`, lines 191–211.
The two output pointers are assumed non-null (the only callers pass
stack addresses); the returned triple is what the source writes through
them. Marks the slot `reading`. -/
def peek (s : FrameBuffer) :
    Option (List Nat × Nat × Int) × FrameBuffer :=
  if ¬ s.initialized then (none, s)
  else if s.count = 0 then (none, s)
  else
    let sl := s.slotAt s.read_idx
    (some (sl.data, sl.size, sl.timestamp_us),
     { s with slots := s.slots.set s.read_idx { sl with reading := true } })

/-- `FrameBuffer::pop()`, lines 216–229. No-op if uninitialized or
empty. -/
def pop (s : FrameBuffer) : FrameBuffer :=
  if ¬ s.initialized then s
  else if s.count = 0 then s
  else
    { s with
      slots := s.slots.set s.read_idx
        { s.slotAt s.read_idx with occupied := false, reading := false },
      read_idx := (s.read_idx + 1) % s.num_slots,
      count := s.count - 1 }

/-- `FrameBuffer::available()`: `count_.load()`. -/
def available (s : FrameBuffer) : Nat := s.count

/-- `FrameBuffer::empty()`: `count_.load() == 0`. -/
def isEmpty (s : FrameBuffer) : Bool := s.count = 0

/-- `FrameBuffer::full()`. -/
def isFull (s : FrameBuffer) : Bool := s.initialized && s.num_slots ≤ s.count

/-- `FrameBuffer::clear()`, lines 243–255: resets `occupied`/`reading`
on every slot and zeroes the indices and the count, but not the dropped
counter. -/
def clear (s : FrameBuffer) : FrameBuffer :=
  if ¬ s.initialized then s
  else
    { s with
      slots := s.slots.map (fun sl => { sl with occupied := false, reading := false }),
      read_idx := 0, write_idx := 0, count := 0 }

/-- `FrameBuffer::reset_stats()`. -/
def reset_stats (s : FrameBuffer) : FrameBuffer :=
  { s with frames_dropped := 0 }

end FrameBuffer

/-- `struct StreamingConfig`. -/
structure StreamingConfig where
  target_fps : Nat
  buffer_slots : Nat
  max_frame_size : Nat
  consumer_timeout_ms : Nat
deriving Repr, DecidableEq

/-- The default member initialisers of `StreamingConfig`. -/
def StreamingConfig.default : StreamingConfig :=
  { target_fps := 3, buffer_slots := 3, max_frame_size := 100 * 1024,
    consumer_timeout_ms := 1000 }

/-- `struct StreamingStats` (the atomic counters, as plain fields). -/
structure StreamingStats where
  frames_captured : Nat
  frames_sent : Nat
  frames_dropped : Nat
  capture_errors : Nat
  producer_running : Bool
deriving Repr, DecidableEq

/-- State of `class StreamingService` (buffer, config, stats, interval,
flags). The task/thread handle and the wake primitive carry no
verified data. -/
structure StreamingService where
  buffer : FrameBuffer
  config : StreamingConfig
  stats : StreamingStats
  frame_interval_us : Int
  stop_requested : Bool
  initialized : Bool
deriving Repr, DecidableEq

namespace StreamingService

/-- A freshly constructed service (member initialisers of the class). -/
def mkFresh : StreamingService :=
  { buffer := FrameBuffer.mkEmpty,
    config := StreamingConfig.default,
    stats := { frames_captured := 0, frames_sent := 0, frames_dropped := 0,
               capture_errors := 0, producer_running := false },
    frame_interval_us := 333333,
    stop_requested := false,
    initialized := false }

/-- `StreamingService::init(config)`, lines 95–115. If already
initialized, returns `true` and changes nothing. Otherwise stores the
config, computes `frame_interval_us_ = 1000000 / config_.target_fps`
(the source performs this division unconditionally, with **no**
validation of the rate; for `target_fps = 0` the C++ division is
undefined behaviour — the model uses Lean's total division, `_ / 0 = 0`,
to continue past that point), then initializes the buffer. On buffer
init failure it returns `false` with the already-assigned config and
interval retained. -/
def init (config : StreamingConfig) (s : StreamingService) :
    Bool × StreamingService :=
  if s.initialized then (true, s)
  else
    let s1 := { s with
      config := config,
      frame_interval_us := (1000000 : Int) / (config.target_fps : Int) }
    let r := FrameBuffer.init config.buffer_slots config.max_frame_size s1.buffer
    if r.1 then (true, { s1 with buffer := r.2, initialized := true })
    else (false, { s1 with buffer := r.2 })

/-- `StreamingService::release_frame()`, lines 240–243: pops the buffer
and unconditionally increments `frames_sent`. -/
def release_frame (s : StreamingService) : StreamingService :=
  { s with
    buffer := s.buffer.pop,
    stats := { s.stats with frames_sent := s.stats.frames_sent + 1 } }

/-- `StreamingService::set_target_fps(fps)`, lines 254–259. -/
def set_target_fps (fps : Nat) (s : StreamingService) : StreamingService :=
  if 0 < fps ∧ fps ≤ 30 then
    { s with
      config := { s.config with target_fps := fps },
      frame_interval_us := (1000000 : Int) / (fps : Int) }
  else s

end StreamingService

/-- The scheduling step at the end of one producer-loop iteration
(`streaming_service.hpp` lines 325–332): advance `next_capture_time` by
the fixed interval, re-read the clock (`now2`), and if the new target is
already in the past resynchronize to `now2 + interval`. -/
def scheduleNext (next_capture_time frame_interval_us now2 : Int) : Int :=
  let n := next_capture_time + frame_interval_us
  if n < now2 then now2 + frame_interval_us else n

/-- A buffer freshly initialized from the default-constructed state. -/
def freshBuffer (num_slots max_frame_size : Nat) : FrameBuffer :=
  (FrameBuffer.init num_slots max_frame_size FrameBuffer.mkEmpty).2

/-- Well-formedness of a `FrameBuffer`: the structural facts that hold
in every reachable initialized state, including the documented
invariants: `0 ≤ count ≤ N`; the occupied slots are exactly the window
of `count` consecutive ring positions starting at `read_idx` (so the
slot at `read_idx` is the oldest occupied slot); at most one slot is
marked `reading`, and it is always the slot at `read_idx` (and is
occupied, since `count > 0`). -/
def FrameBuffer.Inv (s : FrameBuffer) : Prop :=
  s.initialized = true ∧
  s.slots.length = s.num_slots ∧
  0 < s.num_slots ∧
  s.count ≤ s.num_slots ∧
  s.read_idx < s.num_slots ∧
  s.write_idx = (s.read_idx + s.count) % s.num_slots ∧
  (∀ i, i < s.num_slots →
    ((s.slotAt i).occupied = true ↔
      ∃ j, j < s.count ∧ i = (s.read_idx + j) % s.num_slots)) ∧
  (∀ i, i < s.num_slots →
    (s.slotAt i).reading = true → i = s.read_idx ∧ 0 < s.count)

/-- No slot carries the `reading` mark (true whenever no `peek` is
outstanding, e.g. in producer-only runs). -/
def FrameBuffer.NoReading (s : FrameBuffer) : Prop :=
  ∀ i, i < s.num_slots → (s.slotAt i).reading = false

/-- The abstract FIFO contents of the buffer: the data/size/timestamp
of the `count` occupied slots, oldest first. -/
def FrameBuffer.frames (s : FrameBuffer) : List (List Nat × Nat × Int) :=
  (List.range s.count).map (fun j =>
    ((s.slotAt ((s.read_idx + j) % s.num_slots)).data,
     (s.slotAt ((s.read_idx + j) % s.num_slots)).size,
     (s.slotAt ((s.read_idx + j) % s.num_slots)).timestamp_us))

/-- Fold a list of `(data, size, timestamp)` triples through `push`,
keeping only the final state (the producer side of a test run). -/
def FrameBuffer.pushAll (fs : List (List Nat × Nat × Int))
    (s : FrameBuffer) : FrameBuffer :=
  fs.foldl (fun b f => (b.push f.1 f.2.1 f.2.2).2) s

/-- Perform `n` peek/pop pairs, collecting the peek results (the
consumer side of a test run). -/
def FrameBuffer.drain :
    Nat → FrameBuffer → List (Option (List Nat × Nat × Int)) × FrameBuffer
  | 0, s => ([], s)
  | n + 1, s =>
    let p := s.peek
    let s2 := p.2.pop
    let r := FrameBuffer.drain n s2
    (p.1 :: r.1, r.2)

/-- One mutating buffer operation, for whole-run comparisons. -/
inductive BufOp where
  | push (data : List Nat) (size : Nat) (timestamp_us : Int)
  | peek
  | pop
  | clear
deriving Repr, DecidableEq

/-- The observable result of one `BufOp`. -/
inductive BufOut where
  | pushed (ok : Bool)
  | peeked (result : Option (List Nat × Nat × Int))
  | popped
  | cleared
deriving Repr, DecidableEq

/-- Apply one operation, returning its observable output and the new
state. -/
def FrameBuffer.step (s : FrameBuffer) : BufOp → BufOut × FrameBuffer
  | .push d sz ts =>
    let r := s.push d sz ts
    (.pushed r.1, r.2)
  | .peek =>
    let r := s.peek
    (.peeked r.1, r.2)
  | .pop => (.popped, s.pop)
  | .clear => (.cleared, s.clear)

/-- Run a list of operations, collecting the outputs. -/
def FrameBuffer.runOps (s : FrameBuffer) :
    List BufOp → List BufOut × FrameBuffer
  | [] => ([], s)
  | op :: ops =>
    let r := s.step op
    let rest := r.2.runOps ops
    (r.1 :: rest.1, rest.2)

/-- Erase the unobservable residue of an unoccupied slot (the stale
bytes left over from earlier frames, which no operation can surface
again). Keeps the `reading` flag, which `push` does inspect. -/
def FrameSlot.scrub (sl : FrameSlot) : FrameSlot :=
  if sl.occupied then sl
  else { data := [], size := 0, timestamp_us := 0, occupied := false,
         reading := sl.reading }

/-- Quotient a buffer state by its unobservable parts: stale contents
of unoccupied slots and the dropped counter. Two states with equal
`norm` produce identical outputs under every operation (proved below),
with dropped counters differing by a constant offset. -/
def FrameBuffer.norm (s : FrameBuffer) : FrameBuffer :=
  { s with slots := s.slots.map FrameSlot.scrub, frames_dropped := 0 }

/-! ## Generic list lemmas -/

theorem getD_set_self {α : Type} (l : List α) (i : Nat) (a d : α)
    (h : i < l.length) : (l.set i a).getD i d = a := by
  rw [List.getD_eq_getElem _ _ (by simpa using h)]
  simp

theorem getD_set_ne {α : Type} (l : List α) (i j : Nat) (a d : α)
    (h : i ≠ j) : (l.set i a).getD j d = l.getD j d := by
  by_cases hj : j < l.length
  · rw [List.getD_eq_getElem _ _ (by simpa using hj),
      List.getD_eq_getElem _ _ hj]
    exact List.getElem_set_ne h _
  · rw [List.getD_eq_default _ _ (by simpa using Nat.le_of_not_lt hj),
      List.getD_eq_default _ _ (Nat.le_of_not_lt hj)]

theorem getD_replicate_lt {α : Type} (n i : Nat) (a d : α) (h : i < n) :
    (List.replicate n a).getD i d = a := by
  rw [List.getD_eq_getElem _ _ (by simpa using h)]
  simp

theorem map_eq_replicate_of_forall {α β : Type} (f : α → β) (b : β) :
    ∀ l : List α, (∀ x ∈ l, f x = b) →
      l.map f = List.replicate l.length b
  | [], _ => rfl
  | x :: xs, h => by
    simp only [List.map_cons, List.length_cons, List.replicate_succ]
    exact congrArg₂ (· :: ·) (h x (by simp))
      (map_eq_replicate_of_forall f b xs fun y hy => h y (by simp [hy]))

/-- Cancellation of a common offset inside a ring of size `N`. -/
theorem ring_index_inj {N r a b : Nat} (ha : a < N) (hb : b < N)
    (h : (r + a) % N = (r + b) % N) : a = b := by
  have hmod : a % N = b % N := Nat.ModEq.add_left_cancel' r h
  rwa [Nat.mod_eq_of_lt ha, Nat.mod_eq_of_lt hb] at hmod

/-- Every ring position is reached from `r` by a unique offset `k < N`;
the offset is `0` exactly at `r` itself. -/
theorem ring_index_surj {N r i : Nat} (hr : r < N) (hi : i < N) :
    ∃ k, k < N ∧ i = (r + k) % N ∧ (k = 0 ↔ i = r) := by
  rcases le_or_lt r i with h | h
  · refine ⟨i - r, by omega, ?_, by omega⟩
    rw [Nat.add_sub_cancel' h, Nat.mod_eq_of_lt hi]
  · refine ⟨i + N - r, by omega, ?_, by omega⟩
    have heq : r + (i + N - r) = i + N := by omega
    rw [heq, Nat.add_mod_right, Nat.mod_eq_of_lt hi]

/-! ## Shape of `push` in each branch -/

theorem slotAt_def (s : FrameBuffer) (i : Nat) :
    s.slotAt i = s.slots.getD i FrameSlot.blank := rfl

theorem push_invalid_eq (s : FrameBuffer) (data : List Nat) (size : Nat)
    (ts : Int)
    (h : s.initialized = false ∨ data.isEmpty = true ∨ size = 0 ∨
         s.max_frame_size < size) :
    s.push data size ts = (false, s) := by
  unfold FrameBuffer.push
  rcases h with h | h | h | h <;> simp [h]

theorem push_nonfull_eq (s : FrameBuffer) (data : List Nat) (size : Nat)
    (ts : Int) (hinit : s.initialized = true) (hdata : data.isEmpty = false)
    (hsize : size ≠ 0) (hmax : size ≤ s.max_frame_size)
    (hcount : s.count < s.num_slots) :
    s.push data size ts = (true, s.writeFrame data size ts) := by
  unfold FrameBuffer.push
  simp [hinit, hdata, hsize, Nat.not_lt.mpr hmax, Nat.not_le.mpr hcount]

theorem push_full_eq (s : FrameBuffer) (data : List Nat) (size : Nat)
    (ts : Int) (hinit : s.initialized = true) (hdata : data.isEmpty = false)
    (hsize : size ≠ 0) (hmax : size ≤ s.max_frame_size)
    (hcount : s.num_slots ≤ s.count)
    (hnr : (s.slotAt s.read_idx).reading = false) :
    s.push data size ts =
      (true, s.evictOldest.writeFrame data size ts) := by
  unfold FrameBuffer.push
  simp [hinit, hdata, hsize, Nat.not_lt.mpr hmax, hcount, hnr]

theorem push_full_reading_eq (s : FrameBuffer) (data : List Nat)
    (size : Nat) (ts : Int) (hinit : s.initialized = true)
    (hdata : data.isEmpty = false) (hsize : size ≠ 0)
    (hmax : size ≤ s.max_frame_size) (hcount : s.num_slots ≤ s.count)
    (hrd : (s.slotAt s.read_idx).reading = true) :
    s.push data size ts =
      (true, { s with frames_dropped := s.frames_dropped + 1 }) := by
  unfold FrameBuffer.push
  simp [hinit, hdata, hsize, Nat.not_lt.mpr hmax, hcount, hrd]

/-! ## Invariant preservation -/

theorem Inv_writeFrame (s : FrameBuffer) (data : List Nat) (size : Nat)
    (ts : Int) (h : s.Inv) (hcount : s.count < s.num_slots) :
    (s.writeFrame data size ts).Inv := by
  obtain ⟨hinit, hlen, hN, hcnt, hr, hw, hocc, hread⟩ := h
  have hwlt : s.write_idx < s.num_slots := by
    rw [hw]; exact Nat.mod_lt _ hN
  have hwlen : s.write_idx < s.slots.length := by rw [hlen]; exact hwlt
  refine ⟨hinit, ?_, hN, ?_, hr, ?_, ?_, ?_⟩
  · show (s.slots.set _ _).length = s.num_slots
    rw [List.length_set]; exact hlen
  · show s.count + 1 ≤ s.num_slots
    omega
  · show (s.write_idx + 1) % s.num_slots
        = (s.read_idx + (s.count + 1)) % s.num_slots
    rw [hw, Nat.mod_add_mod, Nat.add_assoc]
  · intro i hi
    dsimp only [FrameBuffer.writeFrame, FrameBuffer.slotAt] at hi ⊢
    by_cases hiw : s.write_idx = i
    · subst hiw
      rw [getD_set_self _ _ _ _ hwlen]
      constructor
      · intro _
        exact ⟨s.count, Nat.lt_succ_self _, hw⟩
      · intro _
        rfl
    · rw [getD_set_ne _ _ _ _ _ hiw]
      simp only [slotAt_def] at hocc
      rw [hocc i hi]
      constructor
      · rintro ⟨j, hj, hij⟩
        exact ⟨j, Nat.lt_succ_of_lt hj, hij⟩
      · rintro ⟨j, hj, hij⟩
        rcases Nat.lt_succ_iff_lt_or_eq.mp hj with hj' | hj'
        · exact ⟨j, hj', hij⟩
        · subst hj'
          exact absurd (hw.trans hij.symm) hiw
  · intro i hi
    dsimp only [FrameBuffer.writeFrame, FrameBuffer.slotAt] at hi ⊢
    by_cases hiw : s.write_idx = i
    · subst hiw
      rw [getD_set_self _ _ _ _ hwlen]
      intro hfalse
      exact absurd hfalse (by simp)
    · rw [getD_set_ne _ _ _ _ _ hiw]
      intro hrd
      simp only [slotAt_def] at hread
      obtain ⟨h1, h2⟩ := hread i hi hrd
      exact ⟨h1, Nat.lt_succ_of_lt h2⟩

/-- Removing the head of the window (shared backbone of `pop` and the
eviction step of `push`): setting the slot at `read_idx` to an
unoccupied, unread slot, advancing `read_idx` and decrementing `count`
preserves the invariant, for any value of the dropped counter. -/
theorem Inv_after_remove (s : FrameBuffer) (h : s.Inv) (hc : 0 < s.count)
    (sl' : FrameSlot) (ho : sl'.occupied = false)
    (hrd : sl'.reading = false) (d' : Nat) :
    FrameBuffer.Inv { s with
      slots := s.slots.set s.read_idx sl',
      read_idx := (s.read_idx + 1) % s.num_slots,
      count := s.count - 1,
      frames_dropped := d' } := by
  obtain ⟨hinit, hlen, hN, hcnt, hr, hw, hocc, hread⟩ := h
  have hrlen : s.read_idx < s.slots.length := by rw [hlen]; exact hr
  refine ⟨hinit, ?_, hN, ?_, ?_, ?_, ?_, ?_⟩
  · show (s.slots.set _ _).length = s.num_slots
    rw [List.length_set]; exact hlen
  · show s.count - 1 ≤ s.num_slots
    omega
  · show (s.read_idx + 1) % s.num_slots < s.num_slots
    exact Nat.mod_lt _ hN
  · show s.write_idx
        = ((s.read_idx + 1) % s.num_slots + (s.count - 1)) % s.num_slots
    rw [Nat.mod_add_mod, Nat.add_assoc,
      Nat.add_sub_cancel' (Nat.one_le_iff_ne_zero.mpr (by omega))]
    exact hw
  · intro i hi
    dsimp only [FrameBuffer.slotAt] at hi ⊢
    by_cases hir : s.read_idx = i
    · subst hir
      rw [getD_set_self _ _ _ _ hrlen, ho]
      constructor
      · intro hfalse
        exact absurd hfalse (by simp)
      · rintro ⟨j, hj, hij⟩
        rw [Nat.mod_add_mod] at hij
        have hij' : (s.read_idx + 0) % s.num_slots
            = (s.read_idx + (1 + j)) % s.num_slots := by
          rw [Nat.add_zero, Nat.mod_eq_of_lt hr, ← Nat.add_assoc]
          exact hij
        have h01 : (0 : Nat) = 1 + j :=
          ring_index_inj hN (by omega) hij'
        omega
    · rw [getD_set_ne _ _ _ _ _ hir]
      simp only [slotAt_def] at hocc
      rw [hocc i hi]
      constructor
      · rintro ⟨j, hj, hij⟩
        have hj0 : j ≠ 0 := by
          intro h0
          subst h0
          rw [Nat.add_zero, Nat.mod_eq_of_lt hr] at hij
          exact hir hij.symm
        refine ⟨j - 1, by omega, ?_⟩
        rw [Nat.mod_add_mod, Nat.add_assoc,
          Nat.add_sub_cancel' (Nat.one_le_iff_ne_zero.mpr hj0)]
        exact hij
      · rintro ⟨j, hj, hij⟩
        rw [Nat.mod_add_mod] at hij
        refine ⟨1 + j, by omega, ?_⟩
        rw [← Nat.add_assoc]
        exact hij
  · intro i hi
    show ((s.slots.set s.read_idx sl').getD i FrameSlot.blank).reading
        = true → _
    by_cases hir : s.read_idx = i
    · subst hir
      rw [getD_set_self _ _ _ _ hrlen, hrd]
      intro hfalse
      exact absurd hfalse (by simp)
    · rw [getD_set_ne _ _ _ _ _ hir]
      intro hrd'
      simp only [slotAt_def] at hread
      exact absurd (hread i hi hrd').1.symm hir

theorem getD_map_blank (f : FrameSlot → FrameSlot)
    (hf : f FrameSlot.blank = FrameSlot.blank) (l : List FrameSlot)
    (i : Nat) :
    (l.map f).getD i FrameSlot.blank = f (l.getD i FrameSlot.blank) := by
  conv_lhs => rw [← hf]
  exact List.getD_map l FrameSlot.blank f

theorem Inv_evictOldest (s : FrameBuffer) (h : s.Inv)
    (hfull : s.num_slots ≤ s.count)
    (hnr : (s.slotAt s.read_idx).reading = false) :
    s.evictOldest.Inv := by
  have hc : 0 < s.count := lt_of_lt_of_le h.2.2.1 hfull
  exact Inv_after_remove s h hc
    { s.slotAt s.read_idx with occupied := false } rfl hnr
    (s.frames_dropped + 1)

theorem Inv_pop (s : FrameBuffer) (h : s.Inv) : s.pop.Inv := by
  by_cases h1 : ¬ s.initialized
  · simpa [FrameBuffer.pop, h1] using h
  by_cases h2 : s.count = 0
  · simpa [FrameBuffer.pop, h1, h2] using h
  have hres : s.pop = { s with
      slots := s.slots.set s.read_idx
        { s.slotAt s.read_idx with occupied := false, reading := false },
      read_idx := (s.read_idx + 1) % s.num_slots,
      count := s.count - 1 } := by
    unfold FrameBuffer.pop
    simp [h1, h2]
  rw [hres]
  exact Inv_after_remove s h (Nat.pos_of_ne_zero h2) _ rfl rfl
    s.frames_dropped

theorem Inv_peek (s : FrameBuffer) (h : s.Inv) : s.peek.2.Inv := by
  by_cases h1 : ¬ s.initialized
  · simpa [FrameBuffer.peek, h1] using h
  by_cases h2 : s.count = 0
  · simpa [FrameBuffer.peek, h1, h2] using h
  obtain ⟨hinit, hlen, hN, hcnt, hr, hw, hocc, hread⟩ := h
  have hrlen : s.read_idx < s.slots.length := by rw [hlen]; exact hr
  have hres : s.peek.2 = { s with
      slots := s.slots.set s.read_idx
        { s.slotAt s.read_idx with reading := true } } := by
    unfold FrameBuffer.peek
    simp [h1, h2]
  rw [hres]
  refine ⟨hinit, ?_, hN, hcnt, hr, hw, ?_, ?_⟩
  · show (s.slots.set _ _).length = s.num_slots
    rw [List.length_set]; exact hlen
  · intro i hi
    dsimp only [FrameBuffer.slotAt] at hi ⊢
    simp only [slotAt_def] at hocc
    by_cases hir : s.read_idx = i
    · subst hir
      rw [getD_set_self _ _ _ _ hrlen]
      exact hocc _ hi
    · rw [getD_set_ne _ _ _ _ _ hir]
      exact hocc i hi
  · intro i hi
    dsimp only [FrameBuffer.slotAt] at hi ⊢
    by_cases hir : s.read_idx = i
    · subst hir
      rw [getD_set_self _ _ _ _ hrlen]
      intro _
      exact ⟨rfl, Nat.pos_of_ne_zero h2⟩
    · rw [getD_set_ne _ _ _ _ _ hir]
      intro hrd
      simp only [slotAt_def] at hread
      exact hread i hi hrd

theorem Inv_clear (s : FrameBuffer) (h : s.Inv) : s.clear.Inv := by
  obtain ⟨hinit, hlen, hN, hcnt, hr, hw, hocc, hread⟩ := h
  have hres : s.clear = { s with
      slots := s.slots.map
        (fun sl => { sl with occupied := false, reading := false }),
      read_idx := 0, write_idx := 0, count := 0 } := by
    unfold FrameBuffer.clear
    simp [hinit]
  rw [hres]
  refine ⟨hinit, ?_, hN, Nat.zero_le _, hN, by simp, ?_, ?_⟩
  · show (s.slots.map _).length = s.num_slots
    rw [List.length_map]; exact hlen
  · intro i hi
    dsimp only [FrameBuffer.slotAt] at hi ⊢
    rw [getD_map_blank _ rfl]
    constructor
    · intro habs
      exact absurd habs (by simp)
    · rintro ⟨j, hj, _⟩
      omega
  · intro i hi
    dsimp only [FrameBuffer.slotAt] at hi ⊢
    rw [getD_map_blank _ rfl]
    intro habs
    exact absurd habs (by simp)

theorem freshBuffer_eq (C M : Nat) (hC : 0 < C) (hM : 0 < M) :
    freshBuffer C M =
      { slots := List.replicate C FrameSlot.blank,
        num_slots := C, max_frame_size := M, write_idx := 0,
        read_idx := 0, count := 0, frames_dropped := 0,
        initialized := true } := by
  unfold freshBuffer FrameBuffer.init
  simp [FrameBuffer.mkEmpty, Nat.pos_iff_ne_zero.mp hC,
    Nat.pos_iff_ne_zero.mp hM]

theorem Inv_freshBuffer (C M : Nat) (hC : 0 < C) (hM : 0 < M) :
    (freshBuffer C M).Inv := by
  rw [freshBuffer_eq C M hC hM]
  refine ⟨rfl, by simp, hC, Nat.zero_le _, hC, by simp, ?_, ?_⟩
  · intro i hi
    dsimp only [FrameBuffer.slotAt] at hi ⊢
    rw [getD_replicate_lt _ _ _ _ hi]
    constructor
    · intro habs
      exact absurd habs (by decide)
    · rintro ⟨j, hj, _⟩
      omega
  · intro i hi
    dsimp only [FrameBuffer.slotAt] at hi ⊢
    rw [getD_replicate_lt _ _ _ _ hi]
    intro habs
    exact absurd habs (by decide)

theorem Inv_push (s : FrameBuffer) (data : List Nat) (size : Nat)
    (ts : Int) (h : s.Inv) : (s.push data size ts).2.Inv := by
  by_cases h1 : s.initialized = false ∨ data.isEmpty = true ∨ size = 0 ∨
      s.max_frame_size < size
  · rw [push_invalid_eq s data size ts h1]
    exact h
  simp only [not_or] at h1
  obtain ⟨ha, hb, hc, hd⟩ := h1
  have hinit : s.initialized = true := by
    cases hin : s.initialized
    · exact absurd hin ha
    · rfl
  have hdata : data.isEmpty = false := by
    cases hde : data.isEmpty
    · rfl
    · exact absurd hde hb
  have hmax : size ≤ s.max_frame_size := Nat.le_of_not_lt hd
  by_cases hfull : s.num_slots ≤ s.count
  · cases hrd : (s.slotAt s.read_idx).reading
    · rw [push_full_eq s data size ts hinit hdata hc hmax hfull hrd]
      have hN : 0 < s.num_slots := h.2.2.1
      have hcnt : s.count ≤ s.num_slots := h.2.2.2.1
      exact Inv_writeFrame _ data size ts
        (Inv_evictOldest s h hfull hrd)
        (show s.count - 1 < s.num_slots by omega)
    · rw [push_full_reading_eq s data size ts hinit hdata hc hmax hfull hrd]
      exact h
  · rw [push_nonfull_eq s data size ts hinit hdata hc hmax
      (Nat.lt_of_not_le hfull)]
    exact Inv_writeFrame s data size ts h (Nat.lt_of_not_le hfull)

/-! ## The FIFO abstraction `frames` -/

theorem frames_length (s : FrameBuffer) : s.frames.length = s.count := by
  simp [FrameBuffer.frames]

theorem frames_writeFrame (s : FrameBuffer) (h : s.Inv)
    (hcount : s.count < s.num_slots) (data : List Nat) (size : Nat)
    (ts : Int) :
    (s.writeFrame data size ts).frames
      = s.frames ++ [(data.take size, size, ts)] := by
  obtain ⟨hinit, hlen, hN, hcnt, hr, hw, hocc, hread⟩ := h
  have hwlt : s.write_idx < s.num_slots := by
    rw [hw]; exact Nat.mod_lt _ hN
  have hwlen : s.write_idx < s.slots.length := by rw [hlen]; exact hwlt
  unfold FrameBuffer.frames
  dsimp only [FrameBuffer.writeFrame, FrameBuffer.slotAt]
  rw [List.range_succ, List.map_append]
  congr 1
  · apply List.map_congr_left
    intro j hj
    rw [List.mem_range] at hj
    have hne : s.write_idx ≠ (s.read_idx + j) % s.num_slots := by
      rw [hw]
      intro heq
      have := ring_index_inj hcount (lt_trans hj hcount) heq
      omega
    rw [getD_set_ne _ _ _ _ _ hne]
  · simp only [List.map_cons, List.map_nil]
    rw [← hw, getD_set_self _ _ _ _ hwlen]

theorem peek_of_pos (s : FrameBuffer) (h : s.Inv) (hc : 0 < s.count) :
    s.peek.1 = some ((s.slotAt s.read_idx).data,
      (s.slotAt s.read_idx).size, (s.slotAt s.read_idx).timestamp_us) ∧
    s.peek.2 = { s with
      slots := s.slots.set s.read_idx
        { s.slotAt s.read_idx with reading := true } } := by
  unfold FrameBuffer.peek
  simp [h.1, Nat.pos_iff_ne_zero.mp hc]

theorem frames_head (s : FrameBuffer) (h : s.Inv) (hc : 0 < s.count) :
    s.frames.head? = some ((s.slotAt s.read_idx).data,
      (s.slotAt s.read_idx).size, (s.slotAt s.read_idx).timestamp_us) := by
  obtain ⟨hinit, hlen, hN, hcnt, hr, hw, hocc, hread⟩ := h
  unfold FrameBuffer.frames
  have hsplit : s.count = (s.count - 1) + 1 := by omega
  rw [hsplit, List.range_succ_eq_map, List.map_cons, List.head?_cons]
  rw [Nat.add_zero, Nat.mod_eq_of_lt hr]

theorem frames_peek (s : FrameBuffer) (h : s.Inv) (hc : 0 < s.count) :
    s.peek.2.frames = s.frames := by
  have hres := (peek_of_pos s h hc).2
  obtain ⟨hinit, hlen, hN, hcnt, hr, hw, hocc, hread⟩ := h
  have hrlen : s.read_idx < s.slots.length := by rw [hlen]; exact hr
  rw [hres]
  unfold FrameBuffer.frames
  dsimp only [FrameBuffer.slotAt]
  apply List.map_congr_left
  intro j hj
  by_cases hir : s.read_idx = (s.read_idx + j) % s.num_slots
  · rw [← hir, getD_set_self _ _ _ _ hrlen]
  · rw [getD_set_ne _ _ _ _ _ hir]

theorem frames_tail (s : FrameBuffer) (hc : 0 < s.count) :
    s.frames.tail = (List.range (s.count - 1)).map (fun j =>
      ((s.slotAt ((s.read_idx + (j + 1)) % s.num_slots)).data,
       (s.slotAt ((s.read_idx + (j + 1)) % s.num_slots)).size,
       (s.slotAt ((s.read_idx + (j + 1)) % s.num_slots)).timestamp_us)) := by
  unfold FrameBuffer.frames
  have hsplit : s.count = (s.count - 1) + 1 := by omega
  rw [hsplit, List.range_succ_eq_map, List.map_cons, List.tail_cons,
    List.map_map]
  apply List.map_congr_left
  intro j hj
  rfl

theorem frames_pop (s : FrameBuffer) (h : s.Inv) (hc : 0 < s.count) :
    s.pop.frames = s.frames.tail ∧ s.pop.count = s.count - 1 := by
  obtain ⟨hinit, hlen, hN, hcnt, hr, hw, hocc, hread⟩ := h
  have hrlen : s.read_idx < s.slots.length := by rw [hlen]; exact hr
  have hres : s.pop = { s with
      slots := s.slots.set s.read_idx
        { s.slotAt s.read_idx with occupied := false, reading := false },
      read_idx := (s.read_idx + 1) % s.num_slots,
      count := s.count - 1 } := by
    unfold FrameBuffer.pop
    simp [hinit, Nat.pos_iff_ne_zero.mp hc]
  refine ⟨?_, by rw [hres]⟩
  rw [hres, frames_tail s hc]
  unfold FrameBuffer.frames
  dsimp only [FrameBuffer.slotAt]
  apply List.map_congr_left
  intro j hj
  rw [List.mem_range] at hj
  have hidx : ((s.read_idx + 1) % s.num_slots + j) % s.num_slots
      = (s.read_idx + (j + 1)) % s.num_slots := by
    rw [Nat.mod_add_mod, Nat.add_assoc, Nat.add_comm 1 j]
  have hne : s.read_idx ≠ (s.read_idx + (j + 1)) % s.num_slots := by
    intro heq
    have h0 : (s.read_idx + 0) % s.num_slots
        = (s.read_idx + (j + 1)) % s.num_slots := by
      rw [Nat.add_zero, Nat.mod_eq_of_lt hr]
      exact heq
    have := ring_index_inj hN (by omega) h0
    omega
  rw [hidx, getD_set_ne _ _ _ _ _ hne]

/-- Draining a buffer whose abstract contents are `l` by `l.length`
peek/pop pairs returns exactly the elements of `l`, in order. -/
theorem drain_spec :
    ∀ (l : List (List Nat × Nat × Int)) (s : FrameBuffer),
      s.Inv → s.frames = l →
      (FrameBuffer.drain l.length s).1 = l.map some := by
  intro l
  induction l with
  | nil =>
    intro s h hf
    rfl
  | cons x xs ih =>
    intro s h hf
    have hc : 0 < s.count := by
      have hl := frames_length s
      rw [hf] at hl
      simp only [List.length_cons] at hl
      omega
    have hpeek := peek_of_pos s h hc
    have hhead := frames_head s h hc
    rw [hf, List.head?_cons] at hhead
    have hx : x = ((s.slotAt s.read_idx).data, (s.slotAt s.read_idx).size,
        (s.slotAt s.read_idx).timestamp_us) := Option.some.inj hhead
    have hInv2 : s.peek.2.Inv := Inv_peek s h
    have hc2 : 0 < s.peek.2.count := by
      rw [hpeek.2]
      exact hc
    have hframes2 : s.peek.2.frames = x :: xs :=
      (frames_peek s h hc).trans hf
    have hpop := frames_pop s.peek.2 hInv2 hc2
    have hframes3 : s.peek.2.pop.frames = xs := by
      rw [hpop.1, hframes2, List.tail_cons]
    have hInv3 : s.peek.2.pop.Inv := Inv_pop _ hInv2
    show (FrameBuffer.drain (xs.length + 1) s).1 = some x :: xs.map some
    unfold FrameBuffer.drain
    dsimp only
    rw [hpeek.1, ← hx]
    exact congrArg (some x :: ·) (ih s.peek.2.pop hInv3 hframes3)

/-- Pushing a list of valid frames into a buffer with enough free
slots succeeds frame by frame and appends the (truncated-to-size)
payloads to the abstract contents. -/
theorem pushAll_frames (M : Nat) :
    ∀ (fs : List (List Nat × Nat × Int)) (s : FrameBuffer),
      s.Inv → s.max_frame_size = M →
      (∀ f ∈ fs, f.1.isEmpty = false ∧ f.2.1 ≠ 0 ∧ f.2.1 ≤ M) →
      s.count + fs.length ≤ s.num_slots →
      (s.pushAll fs).Inv ∧
      (s.pushAll fs).frames = s.frames
        ++ fs.map (fun f => (f.1.take f.2.1, f.2.1, f.2.2)) ∧
      (s.pushAll fs).count = s.count + fs.length ∧
      (s.pushAll fs).num_slots = s.num_slots ∧
      (s.pushAll fs).max_frame_size = M := by
  intro fs
  induction fs with
  | nil =>
    intro s h hm hv hb
    exact ⟨h, by simp [FrameBuffer.pushAll], rfl, rfl, hm⟩
  | cons f fs ih =>
    intro s h hm hv hb
    obtain ⟨hv1, hv2, hv3⟩ := hv f (List.mem_cons_self f fs)
    have hcount : s.count < s.num_slots := by
      simp only [List.length_cons] at hb
      omega
    have hpush := push_nonfull_eq s f.1 f.2.1 f.2.2 h.1 hv1 hv2
      (by rw [hm]; exact hv3) hcount
    have hs1 : (s.writeFrame f.1 f.2.1 f.2.2).Inv :=
      Inv_writeFrame s _ _ _ h hcount
    have hfr1 := frames_writeFrame s h hcount f.1 f.2.1 f.2.2
    have hstep : s.pushAll (f :: fs)
        = (s.writeFrame f.1 f.2.1 f.2.2).pushAll fs := by
      unfold FrameBuffer.pushAll
      rw [List.foldl_cons, hpush]
    rw [hstep]
    obtain ⟨iInv, ifr, icnt, inum, imax⟩ :=
      ih (s.writeFrame f.1 f.2.1 f.2.2) hs1 hm
        (fun g hg => hv g (List.mem_cons_of_mem f hg))
        (by
          show s.count + 1 + fs.length ≤ s.num_slots
          simp only [List.length_cons] at hb
          omega)
    refine ⟨iInv, ?_, ?_, inum, imax⟩
    · rw [ifr, hfr1, List.append_assoc]
      rfl
    · rw [icnt]
      show s.count + 1 + fs.length = s.count + (fs.length + 1)
      omega

/-! ## Producer-only runs: counting and the dropped counter -/

theorem NoReading_freshBuffer (C M : Nat) (hC : 0 < C) (hM : 0 < M) :
    (freshBuffer C M).NoReading := by
  rw [freshBuffer_eq C M hC hM]
  intro i hi
  dsimp only [FrameBuffer.slotAt]
  rw [getD_replicate_lt _ _ _ _ hi]
  rfl

theorem NoReading_writeFrame (s : FrameBuffer) (h : s.Inv)
    (hnr : s.NoReading) (data : List Nat) (size : Nat) (ts : Int) :
    (s.writeFrame data size ts).NoReading := by
  obtain ⟨hinit, hlen, hN, hcnt, hr, hw, hocc, hread⟩ := h
  have hwlt : s.write_idx < s.num_slots := by
    rw [hw]; exact Nat.mod_lt _ hN
  have hwlen : s.write_idx < s.slots.length := by rw [hlen]; exact hwlt
  intro i hi
  dsimp only [FrameBuffer.writeFrame, FrameBuffer.slotAt] at hi ⊢
  by_cases hiw : s.write_idx = i
  · subst hiw
    rw [getD_set_self _ _ _ _ hwlen]
  · rw [getD_set_ne _ _ _ _ _ hiw]
    exact hnr i hi

theorem NoReading_evictOldest (s : FrameBuffer) (h : s.Inv)
    (hnr : s.NoReading) : s.evictOldest.NoReading := by
  obtain ⟨hinit, hlen, hN, hcnt, hr, hw, hocc, hread⟩ := h
  have hrlen : s.read_idx < s.slots.length := by rw [hlen]; exact hr
  intro i hi
  dsimp only [FrameBuffer.evictOldest, FrameBuffer.slotAt] at hi ⊢
  by_cases hir : s.read_idx = i
  · subst hir
    rw [getD_set_self _ _ _ _ hrlen]
    exact hnr _ hr
  · rw [getD_set_ne _ _ _ _ _ hir]
    exact hnr i hi

/-- In a producer-only run (no outstanding peek), each valid push
either grows the count (below capacity) or drops the oldest frame
(at capacity): after any sequence of valid pushes the count is
`min (count₀ + K) N` and the dropped counter has grown by exactly the
overshoot. -/
theorem pushAll_count_dropped (M : Nat) :
    ∀ (fs : List (List Nat × Nat × Int)) (s : FrameBuffer),
      s.Inv → s.NoReading → s.max_frame_size = M →
      (∀ f ∈ fs, f.1.isEmpty = false ∧ f.2.1 ≠ 0 ∧ f.2.1 ≤ M) →
      (s.pushAll fs).Inv ∧ (s.pushAll fs).NoReading ∧
      (s.pushAll fs).max_frame_size = M ∧
      (s.pushAll fs).num_slots = s.num_slots ∧
      (s.pushAll fs).count = min (s.count + fs.length) s.num_slots ∧
      (s.pushAll fs).frames_dropped
        = s.frames_dropped
          + (s.count + fs.length - min (s.count + fs.length) s.num_slots) := by
  intro fs
  induction fs with
  | nil =>
    intro s h hnr hm hv
    have hcnt : s.count ≤ s.num_slots := h.2.2.2.1
    refine ⟨h, hnr, hm, rfl, ?_, ?_⟩
    · show s.count = min (s.count + 0) s.num_slots
      omega
    · show s.frames_dropped = s.frames_dropped
        + (s.count + 0 - min (s.count + 0) s.num_slots)
      omega
  | cons f fs ih =>
    intro s h hnr hm hv
    obtain ⟨hv1, hv2, hv3⟩ := hv f (List.mem_cons_self f fs)
    have hN : 0 < s.num_slots := h.2.2.1
    have hcnt : s.count ≤ s.num_slots := h.2.2.2.1
    by_cases hfull : s.num_slots ≤ s.count
    · have hrd : (s.slotAt s.read_idx).reading = false :=
        hnr _ h.2.2.2.2.1
      have hpush := push_full_eq s f.1 f.2.1 f.2.2 h.1 hv1 hv2
        (by rw [hm]; exact hv3) hfull hrd
      have hInvE := Inv_evictOldest s h hfull hrd
      have hNRE := NoReading_evictOldest s h hnr
      have hcountE : s.evictOldest.count < s.evictOldest.num_slots := by
        show s.count - 1 < s.num_slots
        omega
      have hInv1 := Inv_writeFrame s.evictOldest f.1 f.2.1 f.2.2
        hInvE hcountE
      have hNR1 := NoReading_writeFrame s.evictOldest hInvE hNRE
        f.1 f.2.1 f.2.2
      have hstep : s.pushAll (f :: fs)
          = (s.evictOldest.writeFrame f.1 f.2.1 f.2.2).pushAll fs := by
        unfold FrameBuffer.pushAll
        rw [List.foldl_cons, hpush]
      rw [hstep]
      obtain ⟨iInv, iNR, imax, inum, icnt, idr⟩ := ih _ hInv1 hNR1 hm
        (fun g hg => hv g (List.mem_cons_of_mem f hg))
      refine ⟨iInv, iNR, imax, inum, ?_, ?_⟩
      · rw [icnt]
        show min (s.count - 1 + 1 + fs.length) s.num_slots
          = min (s.count + (fs.length + 1)) s.num_slots
        omega
      · rw [idr]
        show s.frames_dropped + 1
            + (s.count - 1 + 1 + fs.length
              - min (s.count - 1 + 1 + fs.length) s.num_slots)
          = s.frames_dropped
            + (s.count + (fs.length + 1)
              - min (s.count + (fs.length + 1)) s.num_slots)
        omega
    · have hlt : s.count < s.num_slots := Nat.lt_of_not_le hfull
      have hpush := push_nonfull_eq s f.1 f.2.1 f.2.2 h.1 hv1 hv2
        (by rw [hm]; exact hv3) hlt
      have hInv1 := Inv_writeFrame s f.1 f.2.1 f.2.2 h hlt
      have hNR1 := NoReading_writeFrame s h hnr f.1 f.2.1 f.2.2
      have hstep : s.pushAll (f :: fs)
          = (s.writeFrame f.1 f.2.1 f.2.2).pushAll fs := by
        unfold FrameBuffer.pushAll
        rw [List.foldl_cons, hpush]
      rw [hstep]
      obtain ⟨iInv, iNR, imax, inum, icnt, idr⟩ := ih _ hInv1 hNR1 hm
        (fun g hg => hv g (List.mem_cons_of_mem f hg))
      refine ⟨iInv, iNR, imax, inum, ?_, ?_⟩
      · rw [icnt]
        show min (s.count + 1 + fs.length) s.num_slots
          = min (s.count + (fs.length + 1)) s.num_slots
        omega
      · rw [idr]
        show s.frames_dropped
            + (s.count + 1 + fs.length
              - min (s.count + 1 + fs.length) s.num_slots)
          = s.frames_dropped
            + (s.count + (fs.length + 1)
              - min (s.count + (fs.length + 1)) s.num_slots)
        omega

/-! ## Observational equivalence of states (`norm`) -/

theorem scrub_reading (a : FrameSlot) : a.scrub.reading = a.reading := by
  unfold FrameSlot.scrub
  split <;> rfl

theorem scrub_occupied (a : FrameSlot) :
    a.scrub.occupied = a.occupied := by
  unfold FrameSlot.scrub
  split
  · rfl
  · next hcond =>
    show false = a.occupied
    exact (Bool.not_eq_true _).mp hcond |>.symm

theorem scrub_eq_of_occupied (a : FrameSlot) (h : a.occupied = true) :
    a.scrub = a := by
  unfold FrameSlot.scrub
  simp [h]

theorem scrub_popped (a : FrameSlot) :
    FrameSlot.scrub { a with occupied := false, reading := false }
      = FrameSlot.blank := rfl

theorem scrub_unoccupied_of_unread (a : FrameSlot) (h : a.reading = false) :
    FrameSlot.scrub { a with occupied := false } = FrameSlot.blank := by
  unfold FrameSlot.scrub
  simp only [FrameSlot.blank]
  rw [if_neg (by simp)]
  rw [FrameSlot.mk.injEq]
  exact ⟨rfl, rfl, rfl, rfl, h⟩

theorem norm_fields (s t : FrameBuffer) (h : s.norm = t.norm) :
    s.num_slots = t.num_slots ∧ s.max_frame_size = t.max_frame_size ∧
    s.write_idx = t.write_idx ∧ s.read_idx = t.read_idx ∧
    s.count = t.count ∧ s.initialized = t.initialized ∧
    s.slots.map FrameSlot.scrub = t.slots.map FrameSlot.scrub := by
  refine ⟨?_, ?_, ?_, ?_, ?_, ?_, ?_⟩
  · have hx := congrArg FrameBuffer.num_slots h
    exact hx
  · have hx := congrArg FrameBuffer.max_frame_size h
    exact hx
  · have hx := congrArg FrameBuffer.write_idx h
    exact hx
  · have hx := congrArg FrameBuffer.read_idx h
    exact hx
  · have hx := congrArg FrameBuffer.count h
    exact hx
  · have hx := congrArg FrameBuffer.initialized h
    exact hx
  · have hx := congrArg FrameBuffer.slots h
    exact hx

theorem scrub_slotAt (s t : FrameBuffer)
    (h : s.slots.map FrameSlot.scrub = t.slots.map FrameSlot.scrub)
    (i : Nat) :
    (s.slotAt i).scrub = (t.slotAt i).scrub := by
  have hgd := congrArg (fun l => l.getD i FrameSlot.blank) h
  dsimp only at hgd
  rwa [getD_map_blank _ rfl, getD_map_blank _ rfl] at hgd

theorem slot_obs_eq (s t : FrameBuffer) (hne : s.norm = t.norm)
    (i : Nat) :
    (s.slotAt i).reading = (t.slotAt i).reading ∧
    (s.slotAt i).occupied = (t.slotAt i).occupied ∧
    ((s.slotAt i).occupied = true → s.slotAt i = t.slotAt i) := by
  have hs := scrub_slotAt s t (norm_fields s t hne).2.2.2.2.2.2 i
  refine ⟨?_, ?_, ?_⟩
  · rw [← scrub_reading (s.slotAt i), ← scrub_reading (t.slotAt i), hs]
  · rw [← scrub_occupied (s.slotAt i), ← scrub_occupied (t.slotAt i), hs]
  · intro hocc
    have hocct : (t.slotAt i).occupied = true := by
      rw [← scrub_occupied (t.slotAt i), ← hs, scrub_occupied]
      exact hocc
    rw [← scrub_eq_of_occupied _ hocc, ← scrub_eq_of_occupied _ hocct, hs]

theorem read_slot_occupied (s : FrameBuffer) (h : s.Inv)
    (hc : 0 < s.count) :
    (s.slotAt s.read_idx).occupied = true := by
  obtain ⟨hinit, hlen, hN, hcnt, hr, hw, hocc, hread⟩ := h
  exact (hocc s.read_idx hr).mpr
    ⟨0, hc, by rw [Nat.add_zero, Nat.mod_eq_of_lt hr]⟩

theorem peek_dropped (s : FrameBuffer) :
    s.peek.2.frames_dropped = s.frames_dropped := by
  unfold FrameBuffer.peek
  split
  · rfl
  · split
    · rfl
    · rfl

theorem pop_dropped (s : FrameBuffer) :
    s.pop.frames_dropped = s.frames_dropped := by
  unfold FrameBuffer.pop
  split
  · rfl
  · split
    · rfl
    · rfl

theorem clear_dropped (s : FrameBuffer) :
    s.clear.frames_dropped = s.frames_dropped := by
  unfold FrameBuffer.clear
  split
  · rfl
  · rfl

theorem norm_writeFrame (s t : FrameBuffer) (hne : s.norm = t.norm)
    (data : List Nat) (size : Nat) (ts : Int) :
    (s.writeFrame data size ts).norm = (t.writeFrame data size ts).norm := by
  obtain ⟨hnum, hmax, hwidx, hridx, hcount, hinit, hslots⟩ :=
    norm_fields s t hne
  unfold FrameBuffer.norm FrameBuffer.writeFrame
  dsimp only
  rw [FrameBuffer.mk.injEq]
  refine ⟨?_, hnum, hmax, by rw [hwidx, hnum], hridx, by rw [hcount],
    rfl, hinit⟩
  rw [List.map_set, List.map_set, hslots, hwidx]

theorem norm_evictOldest (s t : FrameBuffer) (hne : s.norm = t.norm)
    (hrd : (s.slotAt s.read_idx).reading = false) :
    s.evictOldest.norm = t.evictOldest.norm := by
  obtain ⟨hnum, hmax, hwidx, hridx, hcount, hinit, hslots⟩ :=
    norm_fields s t hne
  have hrdt : (t.slotAt t.read_idx).reading = false := by
    rw [← hridx, ← (slot_obs_eq s t hne s.read_idx).1]
    exact hrd
  unfold FrameBuffer.norm FrameBuffer.evictOldest
  dsimp only
  rw [FrameBuffer.mk.injEq]
  refine ⟨?_, hnum, hmax, hwidx, by rw [hridx, hnum], by rw [hcount],
    rfl, hinit⟩
  rw [List.map_set, List.map_set, scrub_unoccupied_of_unread _ hrd,
    scrub_unoccupied_of_unread _ hrdt, hslots, hridx]

theorem norm_clear (s : FrameBuffer) (h : s.Inv) :
    s.clear.norm =
      { slots := List.replicate s.num_slots FrameSlot.blank,
        num_slots := s.num_slots, max_frame_size := s.max_frame_size,
        write_idx := 0, read_idx := 0, count := 0, frames_dropped := 0,
        initialized := true } := by
  obtain ⟨hinit, hlen, hN, hcnt, hr, hw, hocc, hread⟩ := h
  have hres : s.clear = { s with
      slots := s.slots.map
        (fun sl => { sl with occupied := false, reading := false }),
      read_idx := 0, write_idx := 0, count := 0 } := by
    unfold FrameBuffer.clear
    simp [hinit]
  rw [hres]
  unfold FrameBuffer.norm
  dsimp only
  rw [FrameBuffer.mk.injEq]
  refine ⟨?_, rfl, rfl, rfl, rfl, rfl, rfl, hinit⟩
  have hmap := map_eq_replicate_of_forall
    (FrameSlot.scrub ∘ fun sl : FrameSlot =>
      ({ sl with occupied := false, reading := false } : FrameSlot))
    FrameSlot.blank s.slots (fun x _ => rfl)
  rw [List.map_map, hmap, hlen]

theorem norm_freshBuffer (C M : Nat) (hC : 0 < C) (hM : 0 < M) :
    (freshBuffer C M).norm =
      { slots := List.replicate C FrameSlot.blank,
        num_slots := C, max_frame_size := M, write_idx := 0,
        read_idx := 0, count := 0, frames_dropped := 0,
        initialized := true } := by
  rw [freshBuffer_eq C M hC hM]
  unfold FrameBuffer.norm
  dsimp only
  rw [List.map_replicate]
  rfl

/-- Two states with the same `norm` take the same `push` branch,
report the same result, stay `norm`-equal, and bump their dropped
counters by the same amount. -/
theorem push_lockstep (s t : FrameBuffer) (hs : s.Inv) (ht : t.Inv)
    (hne : s.norm = t.norm) (data : List Nat) (size : Nat) (ts : Int) :
    (s.push data size ts).1 = (t.push data size ts).1 ∧
    (s.push data size ts).2.norm = (t.push data size ts).2.norm ∧
    (s.push data size ts).2.frames_dropped + t.frames_dropped
      = (t.push data size ts).2.frames_dropped + s.frames_dropped := by
  obtain ⟨hnum, hmax, hwidx, hridx, hcount, hinit, hslots⟩ :=
    norm_fields s t hne
  by_cases h1 : s.initialized = false ∨ data.isEmpty = true ∨ size = 0 ∨
      s.max_frame_size < size
  · have h1t : t.initialized = false ∨ data.isEmpty = true ∨ size = 0 ∨
        t.max_frame_size < size := by
      rw [← hinit, ← hmax]
      exact h1
    rw [push_invalid_eq s data size ts h1, push_invalid_eq t data size ts h1t]
    refine ⟨rfl, hne, ?_⟩
    show s.frames_dropped + t.frames_dropped
      = t.frames_dropped + s.frames_dropped
    omega
  · simp only [not_or] at h1
    obtain ⟨ha, hb, hc, hd⟩ := h1
    have hinits : s.initialized = true := by
      cases hin : s.initialized
      · exact absurd hin ha
      · rfl
    have hinitt : t.initialized = true := by rw [← hinit]; exact hinits
    have hdata : data.isEmpty = false := by
      cases hde : data.isEmpty
      · rfl
      · exact absurd hde hb
    have hmaxs : size ≤ s.max_frame_size := Nat.le_of_not_lt hd
    have hmaxt : size ≤ t.max_frame_size := by rw [← hmax]; exact hmaxs
    have hrdeq : (s.slotAt s.read_idx).reading
        = (t.slotAt t.read_idx).reading := by
      rw [← hridx]
      exact (slot_obs_eq s t hne s.read_idx).1
    by_cases hfull : s.num_slots ≤ s.count
    · have hfullt : t.num_slots ≤ t.count := by
        rw [← hnum, ← hcount]
        exact hfull
      cases hrd : (s.slotAt s.read_idx).reading
      · have hrdt : (t.slotAt t.read_idx).reading = false := by
          rw [← hrdeq]
          exact hrd
        rw [push_full_eq s data size ts hinits hdata hc hmaxs hfull hrd,
          push_full_eq t data size ts hinitt hdata hc hmaxt hfullt hrdt]
        refine ⟨rfl, ?_, ?_⟩
        · exact norm_writeFrame _ _ (norm_evictOldest s t hne hrd)
            data size ts
        · show s.frames_dropped + 1 + t.frames_dropped
            = t.frames_dropped + 1 + s.frames_dropped
          omega
      · have hrdt : (t.slotAt t.read_idx).reading = true := by
          rw [← hrdeq]
          exact hrd
        rw [push_full_reading_eq s data size ts hinits hdata hc hmaxs
            hfull hrd,
          push_full_reading_eq t data size ts hinitt hdata hc hmaxt
            hfullt hrdt]
        refine ⟨rfl, hne, ?_⟩
        show s.frames_dropped + 1 + t.frames_dropped
          = t.frames_dropped + 1 + s.frames_dropped
        omega
    · have hlts : s.count < s.num_slots := Nat.lt_of_not_le hfull
      have hltt : t.count < t.num_slots := by
        rw [← hnum, ← hcount]
        exact hlts
      rw [push_nonfull_eq s data size ts hinits hdata hc hmaxs hlts,
        push_nonfull_eq t data size ts hinitt hdata hc hmaxt hltt]
      refine ⟨rfl, norm_writeFrame s t hne data size ts, ?_⟩
      show s.frames_dropped + t.frames_dropped
        = t.frames_dropped + s.frames_dropped
      omega

theorem peek_lockstep (s t : FrameBuffer) (hs : s.Inv) (ht : t.Inv)
    (hne : s.norm = t.norm) :
    s.peek.1 = t.peek.1 ∧ s.peek.2.norm = t.peek.2.norm := by
  obtain ⟨hnum, hmax, hwidx, hridx, hcount, hinit, hslots⟩ :=
    norm_fields s t hne
  by_cases h2 : s.count = 0
  · have h2t : t.count = 0 := by rw [← hcount]; exact h2
    have hres : s.peek = (none, s) := by
      unfold FrameBuffer.peek
      split
      · rfl
      · simp [h2]
    have hrest : t.peek = (none, t) := by
      unfold FrameBuffer.peek
      split
      · rfl
      · simp [h2t]
    rw [hres, hrest]
    exact ⟨rfl, hne⟩
  · have hc : 0 < s.count := Nat.pos_of_ne_zero h2
    have hct : 0 < t.count := by rw [← hcount]; exact hc
    have hps := peek_of_pos s hs hc
    have hpt := peek_of_pos t ht hct
    have hocc_s := read_slot_occupied s hs hc
    have hsl : s.slotAt s.read_idx = t.slotAt t.read_idx := by
      rw [← hridx]
      exact (slot_obs_eq s t hne s.read_idx).2.2 hocc_s
    refine ⟨?_, ?_⟩
    · rw [hps.1, hpt.1, hsl]
    · rw [hps.2, hpt.2]
      unfold FrameBuffer.norm
      dsimp only
      rw [FrameBuffer.mk.injEq]
      refine ⟨?_, hnum, hmax, hwidx, hridx, hcount, rfl, hinit⟩
      rw [List.map_set, List.map_set,
        scrub_eq_of_occupied { s.slotAt s.read_idx with reading := true }
          hocc_s,
        scrub_eq_of_occupied { t.slotAt t.read_idx with reading := true }
          (hsl ▸ hocc_s), hsl, hslots, hridx]

theorem pop_lockstep (s t : FrameBuffer) (hs : s.Inv) (ht : t.Inv)
    (hne : s.norm = t.norm) : s.pop.norm = t.pop.norm := by
  obtain ⟨hnum, hmax, hwidx, hridx, hcount, hinit, hslots⟩ :=
    norm_fields s t hne
  by_cases h2 : s.count = 0
  · have h2t : t.count = 0 := by rw [← hcount]; exact h2
    have hres : s.pop = s := by
      unfold FrameBuffer.pop
      split
      · rfl
      · simp [h2]
    have hrest : t.pop = t := by
      unfold FrameBuffer.pop
      split
      · rfl
      · simp [h2t]
    rw [hres, hrest]
    exact hne
  · have h2t : ¬ t.count = 0 := by rw [← hcount]; exact h2
    have hres : s.pop = { s with
        slots := s.slots.set s.read_idx
          { s.slotAt s.read_idx with occupied := false, reading := false },
        read_idx := (s.read_idx + 1) % s.num_slots,
        count := s.count - 1 } := by
      unfold FrameBuffer.pop
      simp [hs.1, h2]
    have hrest : t.pop = { t with
        slots := t.slots.set t.read_idx
          { t.slotAt t.read_idx with occupied := false, reading := false },
        read_idx := (t.read_idx + 1) % t.num_slots,
        count := t.count - 1 } := by
      unfold FrameBuffer.pop
      simp [ht.1, h2t]
    rw [hres, hrest]
    unfold FrameBuffer.norm
    dsimp only
    rw [FrameBuffer.mk.injEq]
    refine ⟨?_, hnum, hmax, hwidx, by rw [hridx, hnum], by rw [hcount],
      rfl, hinit⟩
    rw [List.map_set, List.map_set, scrub_popped, scrub_popped,
      hslots, hridx]

theorem clear_lockstep (s t : FrameBuffer) (hs : s.Inv) (ht : t.Inv)
    (hne : s.norm = t.norm) : s.clear.norm = t.clear.norm := by
  obtain ⟨hnum, hmax, hwidx, hridx, hcount, hinit, hslots⟩ :=
    norm_fields s t hne
  rw [norm_clear s hs, norm_clear t ht, hnum, hmax]

theorem step_lockstep (s t : FrameBuffer) (op : BufOp) (hs : s.Inv)
    (ht : t.Inv) (hne : s.norm = t.norm) :
    (s.step op).1 = (t.step op).1 ∧
    (s.step op).2.norm = (t.step op).2.norm ∧
    (s.step op).2.Inv ∧ (t.step op).2.Inv ∧
    (s.step op).2.frames_dropped + t.frames_dropped
      = (t.step op).2.frames_dropped + s.frames_dropped := by
  cases op with
  | push d sz ts =>
    obtain ⟨ho, hn, hd⟩ := push_lockstep s t hs ht hne d sz ts
    exact ⟨congrArg BufOut.pushed ho, hn, Inv_push s d sz ts hs,
      Inv_push t d sz ts ht, hd⟩
  | peek =>
    obtain ⟨ho, hn⟩ := peek_lockstep s t hs ht hne
    refine ⟨congrArg BufOut.peeked ho, hn, Inv_peek s hs, Inv_peek t ht, ?_⟩
    have h1 := peek_dropped s
    have h2 := peek_dropped t
    show s.peek.2.frames_dropped + t.frames_dropped
      = t.peek.2.frames_dropped + s.frames_dropped
    omega
  | pop =>
    refine ⟨rfl, pop_lockstep s t hs ht hne, Inv_pop s hs, Inv_pop t ht, ?_⟩
    have h1 := pop_dropped s
    have h2 := pop_dropped t
    show s.pop.frames_dropped + t.frames_dropped
      = t.pop.frames_dropped + s.frames_dropped
    omega
  | clear =>
    refine ⟨rfl, clear_lockstep s t hs ht hne, Inv_clear s hs,
      Inv_clear t ht, ?_⟩
    have h1 := clear_dropped s
    have h2 := clear_dropped t
    show s.clear.frames_dropped + t.frames_dropped
      = t.clear.frames_dropped + s.frames_dropped
    omega

theorem runOps_lockstep (ops : List BufOp) :
    ∀ (s t : FrameBuffer), s.Inv → t.Inv → s.norm = t.norm →
      (s.runOps ops).1 = (t.runOps ops).1 ∧
      (s.runOps ops).2.norm = (t.runOps ops).2.norm ∧
      (s.runOps ops).2.frames_dropped + t.frames_dropped
        = (t.runOps ops).2.frames_dropped + s.frames_dropped := by
  induction ops with
  | nil =>
    intro s t hs ht hne
    refine ⟨rfl, hne, ?_⟩
    show s.frames_dropped + t.frames_dropped
      = t.frames_dropped + s.frames_dropped
    omega
  | cons op ops ih =>
    intro s t hs ht hne
    obtain ⟨ho, hn, hs', ht', hd⟩ := step_lockstep s t op hs ht hne
    obtain ⟨iho, ihn, ihd⟩ := ih (s.step op).2 (t.step op).2 hs' ht' hn
    refine ⟨?_, ihn, ?_⟩
    · show (s.step op).1 :: ((s.step op).2.runOps ops).1
        = (t.step op).1 :: ((t.step op).2.runOps ops).1
      rw [ho, iho]
    · show ((s.step op).2.runOps ops).2.frames_dropped + t.frames_dropped
        = ((t.step op).2.runOps ops).2.frames_dropped + s.frames_dropped
      omega

/-! ## Simple claim theorems -/

/-- C5 (ring buffer invariants): the invariant `FrameBuffer.Inv` —
`0 ≤ count ≤ N` (the lower bound is inherent to `Nat`), the occupied
slots are exactly the `count` ring positions starting at `read_idx`
(hence the slot at `read_idx` is the oldest occupied slot), and at most
one slot is marked `reading`, always the one at `read_idx` — holds for
a freshly initialized buffer and is preserved by `push`, `peek`, `pop`
and `clear`; moreover `empty()` is `count == 0` in every state. -/
theorem c5_invariants :
    (∀ C M, 0 < C → 0 < M → (freshBuffer C M).Inv) ∧
    (∀ (s : FrameBuffer) (data : List Nat) (size : Nat) (ts : Int),
      s.Inv → (s.push data size ts).2.Inv) ∧
    (∀ s : FrameBuffer, s.Inv → s.peek.2.Inv) ∧
    (∀ s : FrameBuffer, s.Inv → s.pop.Inv) ∧
    (∀ s : FrameBuffer, s.Inv → s.clear.Inv) ∧
    (∀ s : FrameBuffer, s.isEmpty = true ↔ s.count = 0) :=
  ⟨Inv_freshBuffer, Inv_push, Inv_peek, Inv_pop, Inv_clear,
   fun s => by simp [FrameBuffer.isEmpty]⟩

/-- Witness for C5 at a concrete buffer: the invariant holds after
init and after a push. -/
theorem c5_invariants_witness :
    (freshBuffer 2 8).Inv ∧ ((freshBuffer 2 8).push [3] 1 5).2.Inv :=
  ⟨c5_invariants.1 2 8 (by decide) (by decide),
   c5_invariants.2.1 (freshBuffer 2 8) [3] 1 5
     (c5_invariants.1 2 8 (by decide) (by decide))⟩

/-- C1 (FIFO): starting from a freshly initialized buffer of capacity
`C`, pushing any `N ≤ C` valid frames (each with its advertised size
equal to its payload length, nonzero and at most the maximum frame
size) and then performing `N` peek/pop pairs returns exactly the
pushed payload/size/timestamp triples, in push order. -/
theorem c1_fifo (C M : Nat) (hC : 0 < C) (hM : 0 < M)
    (fs : List (List Nat × Nat × Int))
    (hlen : fs.length ≤ C)
    (hvalid : ∀ f ∈ fs, f.1.length = f.2.1 ∧ f.2.1 ≠ 0 ∧ f.2.1 ≤ M) :
    (FrameBuffer.drain fs.length ((freshBuffer C M).pushAll fs)).1
      = fs.map some := by
  have hInv0 := Inv_freshBuffer C M hC hM
  have heq := freshBuffer_eq C M hC hM
  have hv : ∀ f ∈ fs, f.1.isEmpty = false ∧ f.2.1 ≠ 0 ∧ f.2.1 ≤ M := by
    intro f hf
    obtain ⟨h1, h2, h3⟩ := hvalid f hf
    refine ⟨?_, h2, h3⟩
    cases hfe : f.1.isEmpty
    · rfl
    · exfalso
      rw [List.isEmpty_iff] at hfe
      rw [hfe] at h1
      exact h2 h1.symm
  have hmax : (freshBuffer C M).max_frame_size = M := by rw [heq]
  have hcnt0 : (freshBuffer C M).count = 0 := by rw [heq]
  have hnum0 : (freshBuffer C M).num_slots = C := by rw [heq]
  have hfr0 : (freshBuffer C M).frames = [] := by
    unfold FrameBuffer.frames
    rw [hcnt0]
    rfl
  obtain ⟨hInv1, hfr1, _, _, _⟩ := pushAll_frames M fs (freshBuffer C M)
    hInv0 hmax hv (by rw [hcnt0, hnum0]; omega)
  have hstore : fs.map (fun f => (f.1.take f.2.1, f.2.1, f.2.2)) = fs := by
    have hcg : fs.map (fun f => (f.1.take f.2.1, f.2.1, f.2.2))
        = fs.map id := by
      apply List.map_congr_left
      rintro ⟨a, b, c⟩ hmem
      obtain ⟨h1, _, _⟩ := hvalid _ hmem
      dsimp only at h1
      show (a.take b, b, c) = (a, b, c)
      rw [← h1, List.take_length]
    rw [hcg, List.map_id]
  have hfr : ((freshBuffer C M).pushAll fs).frames = fs := by
    rw [hfr1, hfr0, hstore, List.nil_append]
  exact drain_spec fs _ hInv1 hfr

/-- Witness for C1: two frames pushed into a fresh two-slot buffer
come back out in order with their payloads, sizes and timestamps. -/
theorem c1_fifo_witness :
    (FrameBuffer.drain 2
        ((freshBuffer 2 4).pushAll [([9], 1, 10), ([7, 8], 2, 20)])).1
      = [some ([9], 1, 10), some ([7, 8], 2, 20)] :=
  c1_fifo 2 4 (by decide) (by decide) [([9], 1, 10), ([7, 8], 2, 20)]
    (by decide) (by decide)

/-- C2 (bounded capacity): pushing `K > C` valid frames into a fresh
buffer of capacity `C`, with no intervening pops or peeks, leaves
`available() = C` and `frames_dropped() = K - C`. In particular — the
spec's Scenario 1 — with capacity 3, max 4096, and pushes of sizes
100, 200, 300, 400, the fourth push leaves `available() = 3`,
`frames_dropped() = 1`, and `peek()` yields the size-200 frame. -/
theorem c2_bounded_capacity (C M K : Nat) (hC : 0 < C) (hM : 0 < M)
    (fs : List (List Nat × Nat × Int)) (hK : fs.length = K)
    (hover : C < K)
    (hvalid : ∀ f ∈ fs, f.1.isEmpty = false ∧ f.2.1 ≠ 0 ∧ f.2.1 ≤ M) :
    ((freshBuffer C M).pushAll fs).available = C ∧
    ((freshBuffer C M).pushAll fs).frames_dropped = K - C ∧
    ((freshBuffer 3 4096).pushAll
        [(List.replicate 100 1, 100, 11), (List.replicate 200 2, 200, 12),
         (List.replicate 300 3, 300, 13),
         (List.replicate 400 4, 400, 14)]).available = 3 ∧
    ((freshBuffer 3 4096).pushAll
        [(List.replicate 100 1, 100, 11), (List.replicate 200 2, 200, 12),
         (List.replicate 300 3, 300, 13),
         (List.replicate 400 4, 400, 14)]).frames_dropped = 1 ∧
    ((freshBuffer 3 4096).pushAll
        [(List.replicate 100 1, 100, 11), (List.replicate 200 2, 200, 12),
         (List.replicate 300 3, 300, 13),
         (List.replicate 400 4, 400, 14)]).peek.1
      = some (List.replicate 200 2, 200, 12) := by
  have hInv0 := Inv_freshBuffer C M hC hM
  have hNR0 := NoReading_freshBuffer C M hC hM
  have heq := freshBuffer_eq C M hC hM
  obtain ⟨_, _, _, inum, icnt, idr⟩ := pushAll_count_dropped M fs
    (freshBuffer C M) hInv0 hNR0 (by rw [heq]) hvalid
  have hcnt0 : (freshBuffer C M).count = 0 := by rw [heq]
  have hnum0 : (freshBuffer C M).num_slots = C := by rw [heq]
  have hdr0 : (freshBuffer C M).frames_dropped = 0 := by rw [heq]
  refine ⟨?_, ?_, by decide, by decide, by decide⟩
  · show ((freshBuffer C M).pushAll fs).count = C
    rw [icnt, hcnt0, hnum0, hK]
    omega
  · rw [idr, hcnt0, hnum0, hdr0, hK]
    omega

/-- Witness for C2 on a one-slot buffer receiving two pushes: the
second push drops the first frame. -/
theorem c2_bounded_capacity_witness :
    ((freshBuffer 1 1).pushAll [([5], 1, 0), ([6], 1, 1)]).available = 1 ∧
    ((freshBuffer 1 1).pushAll [([5], 1, 0), ([6], 1, 1)]).frames_dropped
      = 2 - 1 :=
  ⟨(c2_bounded_capacity 1 1 2 (by decide) (by decide)
      [([5], 1, 0), ([6], 1, 1)] rfl (by decide) (by decide)).1,
   (c2_bounded_capacity 1 1 2 (by decide) (by decide)
      [([5], 1, 0), ([6], 1, 1)] rfl (by decide) (by decide)).2.1⟩

/-- C3 (reader-immunity of push): on a full, initialized buffer whose
oldest slot carries the `reading` mark from an outstanding `peek`, any
valid `push` returns success and only increments the dropped counter:
the slots (hence the held peek data/size/timestamp), `available()`,
`read_idx` and `write_idx` are all left unchanged. -/
theorem c3_reader_immunity (s : FrameBuffer) (data : List Nat)
    (size : Nat) (ts : Int)
    (hinit : s.initialized = true)
    (hfull : s.num_slots ≤ s.count)
    (hreading : (s.slotAt s.read_idx).reading = true)
    (hdata : data.isEmpty = false) (hsize : size ≠ 0)
    (hmax : size ≤ s.max_frame_size) :
    s.push data size ts =
      (true, { s with frames_dropped := s.frames_dropped + 1 }) ∧
    (s.push data size ts).2.available = s.available ∧
    (s.push data size ts).2.read_idx = s.read_idx ∧
    (s.push data size ts).2.slots = s.slots ∧
    (s.push data size ts).2.frames_dropped = s.frames_dropped + 1 := by
  have hpush : s.push data size ts =
      (true, { s with frames_dropped := s.frames_dropped + 1 }) := by
    simp [FrameBuffer.push, hinit, hdata, hsize, hfull, hreading,
      Nat.not_lt.mpr hmax]
  refine ⟨hpush, ?_, ?_, ?_, ?_⟩ <;> rw [hpush] <;> rfl

/-- Witness for C3 at a concrete full one-slot buffer whose only slot
is being read. -/
theorem c3_reader_immunity_witness :
    let s : FrameBuffer :=
      { slots := [{ data := [5], size := 1, timestamp_us := 0,
                    occupied := true, reading := true }],
        num_slots := 1, max_frame_size := 8, write_idx := 0,
        read_idx := 0, count := 1, frames_dropped := 0,
        initialized := true }
    s.push [7] 1 2 = (true, { s with frames_dropped := 1 }) :=
  (c3_reader_immunity _ [7] 1 2 rfl (by decide) (by decide) (by decide)
    (by decide) (by decide)).1

/-- C4: the code does not validate the configured rate.
`StreamingService::init` computes `1000000 / target_fps` and stores the
configuration before any check; with `target_fps = 0` (an invalid rate)
it still reports success — in C++ the division itself is undefined
behaviour (division by zero). The model evaluates the division totally
(`1000000 / 0 = 0`) and shows the initialization succeeds rather than
being rejected. -/
theorem c4_init_accepts_zero_rate :
    (StreamingService.mkFresh.init
      { target_fps := 0, buffer_slots := 3, max_frame_size := 4096,
        consumer_timeout_ms := 1000 }).1 = true ∧
    (StreamingService.mkFresh.init
      { target_fps := 0, buffer_slots := 3, max_frame_size := 4096,
        consumer_timeout_ms := 1000 }).2.initialized = true ∧
    (StreamingService.mkFresh.init
      { target_fps := 0, buffer_slots := 3, max_frame_size := 4096,
        consumer_timeout_ms := 1000 }).2.frame_interval_us = 0 := by
  refine ⟨rfl, rfl, rfl⟩

/-- C6 (drift-bounded scheduling): one scheduling update at the end of
a producer iteration. `next ≤ now1` holds because the loop only reaches
the capture when the clock has passed `next_capture_time`, and
`now1 ≤ now2` is clock monotonicity across the capture. The new target
never lies more than one interval past the current clock reading, and a
capture delayed beyond one interval resynchronizes to exactly
`now2 + interval` instead of accumulating backlog. -/
theorem c6_drift_bounded (next interval now1 now2 : Int)
    (hdue : next ≤ now1) (hmono : now1 ≤ now2) :
    scheduleNext next interval now2 ≤ now2 + interval ∧
    (next + interval < now2 →
      scheduleNext next interval now2 = now2 + interval) := by
  unfold scheduleNext
  constructor
  · dsimp only
    split <;> omega
  · intro h
    simp [h]

/-- Witness for C6: a capture delayed by more than one interval
(interval 100000, target 0, completion at 250000) resynchronizes to
350000 = now + interval. -/
theorem c6_drift_bounded_witness :
    scheduleNext 0 100000 250000 ≤ 250000 + 100000 ∧
    ((0 : Int) + 100000 < 250000 →
      scheduleNext 0 100000 250000 = 250000 + 100000) :=
  c6_drift_bounded 0 100000 0 250000 (by decide) (by decide)

/-- C7 (invalid push rejected with no state change): `push` on an
uninitialized buffer, or with null/empty data, zero size, or a size
exceeding the configured maximum, returns `false` and returns the state
completely unchanged — slots, indices, count and dropped counter
included. -/
theorem c7_invalid_push_rejected (s : FrameBuffer) (data : List Nat)
    (size : Nat) (ts : Int)
    (h : s.initialized = false ∨ data.isEmpty = true ∨ size = 0 ∨
         s.max_frame_size < size) :
    s.push data size ts = (false, s) := by
  unfold FrameBuffer.push
  rcases h with h | h | h | h <;> simp [h]

/-- Witness for C7: oversize push on a freshly initialized buffer. -/
theorem c7_invalid_push_rejected_witness :
    (freshBuffer 3 16).push [1, 2, 3] 17 0 = (false, freshBuffer 3 16) :=
  c7_invalid_push_rejected _ _ 17 0 (by decide)

/-- C8 (clear behaves like fresh): for every well-formed buffer state,
after `clear()` every subsequent sequence of push/peek/pop/clear
operations produces exactly the outputs (push results and peek
data/size/timestamp results) a freshly initialized buffer of the same
capacity and maximum frame size would produce, the occupancy
(`available()`) evolves identically, and the only difference is that
`frames_dropped()` keeps its pre-clear value as a constant offset. -/
theorem c8_clear_behaves_like_fresh (s : FrameBuffer) (hInv : s.Inv)
    (hM : 0 < s.max_frame_size) (ops : List BufOp) :
    (s.clear.runOps ops).1
      = ((freshBuffer s.num_slots s.max_frame_size).runOps ops).1 ∧
    (s.clear.runOps ops).2.available
      = ((freshBuffer s.num_slots s.max_frame_size).runOps ops).2.available ∧
    (s.clear.runOps ops).2.frames_dropped
      = ((freshBuffer s.num_slots s.max_frame_size).runOps ops).2.frames_dropped
        + s.frames_dropped := by
  have hC : 0 < s.num_slots := hInv.2.2.1
  have hInvC := Inv_clear s hInv
  have hInvF := Inv_freshBuffer s.num_slots s.max_frame_size hC hM
  have hnorm : s.clear.norm
      = (freshBuffer s.num_slots s.max_frame_size).norm := by
    rw [norm_clear s hInv, norm_freshBuffer s.num_slots s.max_frame_size hC hM]
  obtain ⟨ho, hn, hd⟩ := runOps_lockstep ops s.clear
    (freshBuffer s.num_slots s.max_frame_size) hInvC hInvF hnorm
  refine ⟨ho, ?_, ?_⟩
  · have hcnt := congrArg FrameBuffer.count hn
    exact hcnt
  · have hf0 : (freshBuffer s.num_slots s.max_frame_size).frames_dropped
        = 0 := by
      rw [freshBuffer_eq s.num_slots s.max_frame_size hC hM]
    have hc0 : s.clear.frames_dropped = s.frames_dropped := clear_dropped s
    omega

/-- Witness for C8: a capacity-1 buffer that has already dropped one
frame is cleared; a further push/peek/pop run behaves exactly like a
fresh buffer, with the dropped counter offset by the one pre-clear
drop. -/
theorem c8_clear_behaves_like_fresh_witness :
    ((((freshBuffer 1 2).pushAll [([5], 1, 0), ([6], 1, 1)]).clear.runOps
        [BufOp.push [7] 1 2, BufOp.peek, BufOp.pop]).1
      = ((freshBuffer 1 2).runOps
          [BufOp.push [7] 1 2, BufOp.peek, BufOp.pop]).1) ∧
    ((((freshBuffer 1 2).pushAll [([5], 1, 0), ([6], 1, 1)]).clear.runOps
        [BufOp.push [7] 1 2, BufOp.peek, BufOp.pop]).2.frames_dropped
      = ((freshBuffer 1 2).runOps
          [BufOp.push [7] 1 2, BufOp.peek, BufOp.pop]).2.frames_dropped
        + 1) :=
  ⟨(c8_clear_behaves_like_fresh
      ((freshBuffer 1 2).pushAll [([5], 1, 0), ([6], 1, 1)])
      (pushAll_count_dropped 2 [([5], 1, 0), ([6], 1, 1)] (freshBuffer 1 2)
        (Inv_freshBuffer 1 2 (by decide) (by decide))
        (NoReading_freshBuffer 1 2 (by decide) (by decide))
        (by decide) (by decide)).1
      (by decide)
      [BufOp.push [7] 1 2, BufOp.peek, BufOp.pop]).1,
   (c8_clear_behaves_like_fresh
      ((freshBuffer 1 2).pushAll [([5], 1, 0), ([6], 1, 1)])
      (pushAll_count_dropped 2 [([5], 1, 0), ([6], 1, 1)] (freshBuffer 1 2)
        (Inv_freshBuffer 1 2 (by decide) (by decide))
        (NoReading_freshBuffer 1 2 (by decide) (by decide))
        (by decide) (by decide)).1
      (by decide)
      [BufOp.push [7] 1 2, BufOp.peek, BufOp.pop]).2.2⟩

/-- C9 (release_frame over-counts): for every service state with an
empty buffer, `release_frame` leaves the buffer untouched (the
underlying `pop` is a no-op) yet still increments `frames_sent`; in
particular, on a fresh service `frames_sent` immediately exceeds
`frames_captured`. -/
theorem c9_release_frame_overcounts (s : StreamingService)
    (hempty : s.buffer.count = 0) :
    (s.release_frame).stats.frames_sent = s.stats.frames_sent + 1 ∧
    (s.release_frame).buffer = s.buffer ∧
    (s.release_frame).stats.frames_captured = s.stats.frames_captured ∧
    (StreamingService.mkFresh.release_frame).stats.frames_sent >
      (StreamingService.mkFresh.release_frame).stats.frames_captured := by
  refine ⟨rfl, ?_, rfl, by decide⟩
  show s.buffer.pop = s.buffer
  unfold FrameBuffer.pop
  simp [hempty]

/-- Witness for C9 on a fresh (empty-buffer) service. -/
theorem c9_release_frame_overcounts_witness :
    (StreamingService.mkFresh.release_frame).stats.frames_sent =
      StreamingService.mkFresh.stats.frames_sent + 1 ∧
    (StreamingService.mkFresh.release_frame).buffer =
      StreamingService.mkFresh.buffer :=
  ⟨(c9_release_frame_overcounts StreamingService.mkFresh rfl).1,
   (c9_release_frame_overcounts StreamingService.mkFresh rfl).2.1⟩

/-- C10 (double init ignores its argument): calling `init` on an
already-initialized service returns `true` and leaves the whole state —
stored configuration, frame interval, and ring buffer — unchanged; the
new configuration argument is never read. -/
theorem c10_double_init_ignores_config (s : StreamingService)
    (cfg : StreamingConfig) (hinit : s.initialized = true) :
    s.init cfg = (true, s) := by
  unfold StreamingService.init
  simp [hinit]

/-- Witness for C10: re-initializing an initialized service with a
different configuration changes nothing. -/
theorem c10_double_init_ignores_config_witness :
    (StreamingService.mkFresh.init StreamingConfig.default).2.init
      { target_fps := 30, buffer_slots := 9, max_frame_size := 64,
        consumer_timeout_ms := 5 } =
    (true, (StreamingService.mkFresh.init StreamingConfig.default).2) :=
  c10_double_init_ignores_config _ _ rfl

end Esp32Cam
